import Mathlib

/-!
Verification of the lease-based page lock manager in `src/app.py`.

The lock store is the directory `site_src/.locks`: one small JSON file per
page, named `page.replace('/', '_') + ".lock"`.  We embed that directory as
an association list from file name to file content; file content is either
a parsed `LeaseRecord` or an unparseable blob (modelling invalid JSON).
Time is a `Nat` (seconds since epoch); each Python operation reads the
clock via `_now()`, which we pass in as an explicit `now` argument (one
clock value per call; the sequential model does not distinguish the two
back-to-back `_now()` calls inside `acquire_lock`).
-/

namespace LockApp

/-- The persisted lease record, `{'owner', 'owner_name', 'acquired_at',
'expires_at'}` as written by `acquire_lock` in `src/app.py`. -/
structure LeaseRecord where
  owner : String
  owner_name : String
  acquired_at : Nat
  expires_at : Nat
  deriving DecidableEq, Repr

/-- Content of one lock file: either a record that parses as JSON, or a
corrupt blob (`json.loads` raises). -/
inductive LockFile where
  | valid (r : LeaseRecord)
  | corrupt (raw : String)
  deriving DecidableEq, Repr

/-- The `.locks` directory: file name paired with file content. -/
abbrev Dir := List (String × LockFile)

/-- The empty lock directory (initial state of `site_src/.locks`). -/
def emptyDir : Dir := []

/-- Read a file from the directory, `None` when absent. -/
def readFile (k : String) : Dir → Option LockFile
  | [] => none
  | e :: rest => if e.1 = k then some e.2 else readFile k rest

/-- `Path.write_text`: create the file or overwrite its content in place. -/
def writeFile (k : String) (v : LockFile) : Dir → Dir
  | [] => [(k, v)]
  | e :: rest => if e.1 = k then (k, v) :: rest else e :: writeFile k v rest

/-- `Path.unlink`: remove the file (all entries under that name). -/
def removeFile (k : String) : Dir → Dir
  | [] => []
  | e :: rest => if e.1 = k then removeFile k rest else e :: removeFile k rest

/-- A real directory has pairwise-distinct file names. -/
def wfKeys (d : Dir) : Prop :=
  d.Pairwise (fun a b => a.1 ≠ b.1)

instance (d : Dir) : Decidable (wfKeys d) :=
  inferInstanceAs (Decidable (List.Pairwise _ d))

/-- `PAGES`-derived whitelist `SRC_FILES` of editable source templates. -/
def SRC_FILES : List String := ["home.html", "catalog.html", "cart.html", "contacts.html"]

/-- `LOCK_TTL`: lease TTL in seconds (`PAGE_LOCK_TTL`, default 300). -/
def LOCK_TTL : Nat := 300

/-- `page_name.replace('/', '_')` from `_lock_path`. -/
def sanitize (page : String) : String :=
  String.mk (page.toList.map (fun c => if c = '/' then '_' else c))

/-- `_lock_path`: the lock file name for a page, `sanitized + ".lock"`. -/
def lockName (page : String) : String :=
  sanitize page ++ ".lock"

/-- `get_lock` from `src/app.py`: read the lock file; corrupt JSON or a
missing file is reported as no lock (corrupt files are kept); a record with
`expires_at < now` is lazily deleted and reported as no lock.  Returns the
observed record together with the directory after the opportunistic
deletion. -/
def get_lock (page : String) (now : Nat) (d : Dir) : Option LeaseRecord × Dir :=
  match readFile (lockName page) d with
  | none => (none, d)
  | some (.corrupt _) => (none, d)
  | some (.valid r) =>
      if r.expires_at < now then (none, removeFile (lockName page) d)
      else (some r, d)

/-- The record `acquire_lock` writes:
`{'owner': owner_id, 'owner_name': owner_name or '', 'acquired_at': _now(),
'expires_at': _now() + LOCK_TTL}`. -/
def freshRecord (owner : String) (owner_name : Option String) (now : Nat) : LeaseRecord :=
  ⟨owner, owner_name.getD "", now, now + LOCK_TTL⟩

/-- The read phase of `acquire_lock`: `cur = get_lock(page_name)`. -/
def acquireRead (page : String) (now : Nat) (d : Dir) : Option LeaseRecord × Dir :=
  get_lock page now d

/-- The write phase of `acquire_lock`, applied to the snapshot `cur` the
read phase observed: when `cur is None or cur.get('owner') == owner_id`,
unconditionally write the fresh record and return it; otherwise return
`None`. -/
def acquireCommit (page owner : String) (owner_name : Option String) (now : Nat)
    (cur : Option LeaseRecord) (d : Dir) : Option LeaseRecord × Dir :=
  match cur with
  | none =>
      let data := freshRecord owner owner_name now
      (some data, writeFile (lockName page) (.valid data) d)
  | some r =>
      if r.owner = owner then
        let data := freshRecord owner owner_name now
        (some data, writeFile (lockName page) (.valid data) d)
      else (none, d)

/-- `acquire_lock` from `src/app.py`: a read (`get_lock`) followed by a
separate write — not an atomic conditional put. -/
def acquire_lock (page owner : String) (owner_name : Option String) (now : Nat)
    (d : Dir) : Option LeaseRecord × Dir :=
  let (cur, d1) := acquireRead page now d
  acquireCommit page owner owner_name now cur d1

/-- `release_lock` from `src/app.py`: delete the lock file only when the
current unexpired record belongs to `owner`; report whether it did. -/
def release_lock (page owner : String) (now : Nat) (d : Dir) : Bool × Dir :=
  let (cur, d1) := get_lock page now d
  match cur with
  | some r => if r.owner = owner then (true, removeFile (lockName page) d1) else (false, d1)
  | none => (false, d1)

/-- `renew_lock` from `src/app.py`: when the current unexpired record
belongs to `owner`, overwrite `expires_at` with `now + LOCK_TTL` (keeping
`acquired_at`) and rewrite the file; otherwise return `None`. -/
def renew_lock (page owner : String) (now : Nat) (d : Dir) : Option LeaseRecord × Dir :=
  let (cur, d1) := get_lock page now d
  match cur with
  | some r =>
      if r.owner = owner then
        let r2 := { r with expires_at := now + LOCK_TTL }
        (some r2, writeFile (lockName page) (.valid r2) d1)
      else (none, d1)
  | none => (none, d1)

/-- `_safe_src_path` from `src/app.py`, reduced to its validity check:
raises `ValueError` unless the page is in the `SRC_FILES` whitelist. -/
def safe_src_ok (page : String) : Bool :=
  SRC_FILES.contains page

/-- JSON response of `/api/lock_acquire` (the HTTP status is determined by
the constructor: `ok` is 200, `locked` is 409, `err` is 400). -/
inductive AcquireResp where
  | ok (owner : String) (acquired_at expires_at : Nat)
  | locked (owner owner_name : String) (expires_at : Nat)
  | err (msg : String)
  deriving DecidableEq, Repr

/-- JSON response of `/api/lock_release` and `/api/lock_keepalive` (`ok` is
200, `renewed` is 200 with the new `expires_at`, `err msg 403` or
`err msg 400` as in the handlers). -/
inductive SimpleResp where
  | ok
  | renewed (expires_at : Nat)
  | err (msg : String) (code : Nat)
  deriving DecidableEq, Repr

/-- `api_lock_acquire` from `src/app.py`: reject a missing or
non-whitelisted page before touching the lock directory; otherwise call
`acquire_lock` and on failure read the current holder (`get_lock`) for the
409 body.  The holder read is a `cur.get(...)` on the `get_lock` result;
in this sequential model that result is always present when `acquire_lock`
failed, and the impossible branch is mapped to an `err`. -/
def api_lock_acquire (page owner : String) (owner_name : Option String) (now : Nat)
    (d : Dir) : AcquireResp × Dir :=
  if page = "" then (.err "missing page", d)
  else if ¬ safe_src_ok page then (.err "invalid page", d)
  else
    match acquire_lock page owner owner_name now d with
    | (some got, d1) => (.ok owner got.acquired_at got.expires_at, d1)
    | (none, d1) =>
        match get_lock page now d1 with
        | (some cur, d2) => (.locked cur.owner cur.owner_name cur.expires_at, d2)
        | (none, d2) => (.err "attribute error", d2)

/-- `api_lock_release` from `src/app.py`: validity checks before any lock
access, then `release_lock`; a failed release is a 403 error. -/
def api_lock_release (page owner : String) (now : Nat) (d : Dir) : SimpleResp × Dir :=
  if page = "" then (.err "missing page" 400, d)
  else if ¬ safe_src_ok page then (.err "invalid page" 400, d)
  else
    match release_lock page owner now d with
    | (true, d1) => (.ok, d1)
    | (false, d1) => (.err "not owner or not locked" 403, d1)

/-- `api_lock_keepalive` from `src/app.py`: validity checks before any lock
access, then `renew_lock`; a failed renew is a 403 error. -/
def api_lock_keepalive (page owner : String) (now : Nat) (d : Dir) : SimpleResp × Dir :=
  if page = "" then (.err "missing page" 400, d)
  else if ¬ safe_src_ok page then (.err "invalid page" 400, d)
  else
    match renew_lock page owner now d with
    | (some r, d1) => (.renewed r.expires_at, d1)
    | (none, d1) => (.err "not owner or not locked" 403, d1)

/-- One lock-manager operation applied to the lock directory, with
arbitrary caller-chosen arguments: the step relation for reachability of
directory states.  `inspect` is `get_lock` (also invoked standalone by
`edit_page` and the 409 path). -/
inductive Step : Dir → Dir → Prop where
  | inspect (page : String) (now : Nat) (d : Dir) :
      Step d (get_lock page now d).2
  | acquire (page owner : String) (owner_name : Option String) (now : Nat) (d : Dir) :
      Step d (acquire_lock page owner owner_name now d).2
  | release (page owner : String) (now : Nat) (d : Dir) :
      Step d (release_lock page owner now d).2
  | renew (page owner : String) (now : Nat) (d : Dir) :
      Step d (renew_lock page owner now d).2

/-- Directory states reachable from the initially empty lock directory by
any sequence of inspect / acquire / release / renew operations. -/
inductive Reachable : Dir → Prop where
  | init : Reachable emptyDir
  | step {d d2 : Dir} : Reachable d → Step d d2 → Reachable d2

/-- The entries of the directory that are lease records for page `page`
still live at instant `t` (`expires_at > t`). -/
def liveRecordsFor (page : String) (t : Nat) (d : Dir) : List LeaseRecord :=
  d.filterMap (fun e =>
    match e.2 with
    | .valid r => if e.1 = lockName page ∧ t < r.expires_at then some r else none
    | .corrupt _ => none)

/-! ### Basic store lemmas -/

theorem readFile_writeFile_self (k : String) (v : LockFile) (d : Dir) :
    readFile k (writeFile k v d) = some v := by
  induction d with
  | nil => simp [writeFile, readFile]
  | cons e rest ih =>
      by_cases h : e.1 = k
      · simp [writeFile, h, readFile]
      · simp [writeFile, h, readFile, ih]

theorem readFile_removeFile_self (k : String) (d : Dir) :
    readFile k (removeFile k d) = none := by
  induction d with
  | nil => simp [removeFile, readFile]
  | cons e rest ih =>
      by_cases h : e.1 = k
      · simp [removeFile, h, ih]
      · simp [removeFile, h, readFile, ih]

theorem mem_removeFile {a : String × LockFile} {k : String} {d : Dir}
    (h : a ∈ removeFile k d) : a ∈ d := by
  induction d with
  | nil => simp [removeFile] at h
  | cons e rest ih =>
      by_cases he : e.1 = k
      · simp only [removeFile, if_pos he] at h
        exact List.mem_cons_of_mem _ (ih h)
      · simp only [removeFile, if_neg he, List.mem_cons] at h
        rcases h with h | h
        · exact h ▸ List.mem_cons_self _ _
        · exact List.mem_cons_of_mem _ (ih h)

theorem mem_writeFile {a : String × LockFile} {k : String} {v : LockFile} {d : Dir}
    (h : a ∈ writeFile k v d) : a.1 = k ∨ a ∈ d := by
  induction d with
  | nil =>
      simp only [writeFile, List.mem_singleton] at h
      exact Or.inl (by simp [h])
  | cons e rest ih =>
      by_cases he : e.1 = k
      · simp only [writeFile, if_pos he, List.mem_cons] at h
        rcases h with h | h
        · exact Or.inl (by simp [h])
        · exact Or.inr (List.mem_cons_of_mem _ h)
      · simp only [writeFile, if_neg he, List.mem_cons] at h
        rcases h with h | h
        · exact Or.inr (h ▸ List.mem_cons_self _ _)
        · rcases ih h with h2 | h2
          · exact Or.inl h2
          · exact Or.inr (List.mem_cons_of_mem _ h2)

theorem wfKeys_removeFile (k : String) {d : Dir} (h : wfKeys d) :
    wfKeys (removeFile k d) := by
  induction d with
  | nil => simpa [removeFile] using h
  | cons e rest ih =>
      rcases List.pairwise_cons.mp h with ⟨h1, h2⟩
      by_cases he : e.1 = k
      · simpa [removeFile, he] using ih h2
      · simp only [wfKeys, removeFile, if_neg he]
        exact List.pairwise_cons.mpr ⟨fun b hb => h1 b (mem_removeFile hb), ih h2⟩

theorem wfKeys_writeFile (k : String) (v : LockFile) {d : Dir} (h : wfKeys d) :
    wfKeys (writeFile k v d) := by
  induction d with
  | nil => simp [wfKeys, writeFile]
  | cons e rest ih =>
      rcases List.pairwise_cons.mp h with ⟨h1, h2⟩
      by_cases he : e.1 = k
      · simp only [wfKeys, writeFile, if_pos he]
        exact List.pairwise_cons.mpr ⟨fun b hb => he ▸ h1 b hb, h2⟩
      · simp only [wfKeys, writeFile, if_neg he]
        refine List.pairwise_cons.mpr ⟨fun b hb => ?_, ih h2⟩
        rcases mem_writeFile hb with h3 | h3
        · exact fun hc => he (hc.trans h3)
        · exact h1 b h3

/-! ### Well-formedness is preserved by every operation -/

theorem wfKeys_get_lock (page : String) (now : Nat) {d : Dir} (h : wfKeys d) :
    wfKeys (get_lock page now d).2 := by
  unfold get_lock
  cases readFile (lockName page) d with
  | none => exact h
  | some lf =>
      cases lf with
      | corrupt s => exact h
      | valid r =>
          by_cases he : r.expires_at < now
          · simpa [he] using wfKeys_removeFile _ h
          · simpa [he] using h

theorem wfKeys_acquireCommit (page owner : String) (owner_name : Option String)
    (now : Nat) (cur : Option LeaseRecord) {d : Dir} (h : wfKeys d) :
    wfKeys (acquireCommit page owner owner_name now cur d).2 := by
  unfold acquireCommit
  cases cur with
  | none => exact wfKeys_writeFile _ _ h
  | some r =>
      by_cases ho : r.owner = owner
      · simpa [ho] using wfKeys_writeFile _ _ h
      · simpa [ho] using h

theorem wfKeys_acquire_lock (page owner : String) (owner_name : Option String)
    (now : Nat) {d : Dir} (h : wfKeys d) :
    wfKeys (acquire_lock page owner owner_name now d).2 := by
  unfold acquire_lock acquireRead
  exact wfKeys_acquireCommit _ _ _ _ _ (wfKeys_get_lock page now h)

theorem wfKeys_release_lock (page owner : String) (now : Nat) {d : Dir} (h : wfKeys d) :
    wfKeys (release_lock page owner now d).2 := by
  have h1 := wfKeys_get_lock page now (d := d) h
  unfold release_lock
  rcases hg : get_lock page now d with ⟨cur, d1⟩
  rw [hg] at h1
  cases cur with
  | none => exact h1
  | some r =>
      by_cases ho : r.owner = owner
      · simpa [ho] using wfKeys_removeFile _ h1
      · simpa [ho] using h1

theorem wfKeys_renew_lock (page owner : String) (now : Nat) {d : Dir} (h : wfKeys d) :
    wfKeys (renew_lock page owner now d).2 := by
  have h1 := wfKeys_get_lock page now (d := d) h
  unfold renew_lock
  rcases hg : get_lock page now d with ⟨cur, d1⟩
  rw [hg] at h1
  cases cur with
  | none => exact h1
  | some r =>
      by_cases ho : r.owner = owner
      · simpa [ho] using wfKeys_writeFile _ _ h1
      · simpa [ho] using h1

theorem wfKeys_of_reachable {d : Dir} (h : Reachable d) : wfKeys d := by
  induction h with
  | init => simp [wfKeys, emptyDir]
  | step _ s ih =>
      cases s with
      | inspect page now d => exact wfKeys_get_lock page now ih
      | acquire page owner owner_name now d => exact wfKeys_acquire_lock page owner owner_name now ih
      | release page owner now d => exact wfKeys_release_lock page owner now ih
      | renew page owner now d => exact wfKeys_renew_lock page owner now ih

theorem liveRecordsFor_length_le_one (page : String) (t : Nat) {d : Dir}
    (h : wfKeys d) : (liveRecordsFor page t d).length ≤ 1 := by
  induction d with
  | nil => simp [liveRecordsFor]
  | cons e rest ih =>
      rcases List.pairwise_cons.mp h with ⟨h1, h2⟩
      unfold liveRecordsFor
      rw [List.filterMap_cons]
      cases e2 : e.2 with
      | corrupt s => simpa [liveRecordsFor] using ih h2
      | valid r =>
          by_cases hc : e.1 = lockName page ∧ t < r.expires_at
          · simp only [if_pos hc]
            have hrest : rest.filterMap (fun e =>
                match e.2 with
                | .valid r => if e.1 = lockName page ∧ t < r.expires_at then some r else none
                | .corrupt _ => none) = [] := by
              rw [List.filterMap_eq_nil_iff]
              intro b hb
              have hne : b.1 ≠ lockName page := hc.1 ▸ (h1 b hb).symm
              cases b.2 with
              | corrupt s => simp
              | valid r2 => simp [hne]
            simp [hrest]
          · simp only [if_neg hc]
            simpa [liveRecordsFor] using ih h2

/-! ### Characterizations of the operations -/

/-- All lock-file contents stored for a page (on a well-formed directory
there is at most one). -/
def recordsFor (page : String) (d : Dir) : List LockFile :=
  d.filterMap (fun e => if e.1 = lockName page then some e.2 else none)

theorem recordsFor_writeFile (page : String) (v : LockFile) {d : Dir} (h : wfKeys d) :
    recordsFor page (writeFile (lockName page) v d) = [v] := by
  induction d with
  | nil => simp [recordsFor, writeFile]
  | cons e rest ih =>
      rcases List.pairwise_cons.mp h with ⟨h1, h2⟩
      by_cases he : e.1 = lockName page
      · simp only [writeFile, if_pos he, recordsFor, List.filterMap_cons, if_pos rfl]
        have hrest : rest.filterMap
            (fun e => if e.1 = lockName page then some e.2 else none) = [] := by
          rw [List.filterMap_eq_nil_iff]
          intro b hb
          simp [he ▸ (h1 b hb).symm]
        simp [hrest]
      · simp only [writeFile, if_neg he, recordsFor, List.filterMap_cons, if_neg he]
        simpa [recordsFor] using ih h2

theorem get_lock_absent (page : String) (now : Nat) {d : Dir}
    (h : readFile (lockName page) d = none) :
    get_lock page now d = (none, d) := by
  simp [get_lock, h]

theorem get_lock_corrupt (page : String) (now : Nat) {d : Dir} {s : String}
    (h : readFile (lockName page) d = some (.corrupt s)) :
    get_lock page now d = (none, d) := by
  simp [get_lock, h]

theorem get_lock_unexpired (page : String) (now : Nat) {d : Dir} {r : LeaseRecord}
    (h : readFile (lockName page) d = some (.valid r)) (hu : ¬ r.expires_at < now) :
    get_lock page now d = (some r, d) := by
  simp [get_lock, h, hu]

theorem get_lock_expired (page : String) (now : Nat) {d : Dir} {r : LeaseRecord}
    (h : readFile (lockName page) d = some (.valid r)) (he : r.expires_at < now) :
    get_lock page now d = (none, removeFile (lockName page) d) := by
  simp [get_lock, h, he]

/-- `acquire_lock` is literally the read phase followed by the commit
phase on whatever directory the read phase left behind. -/
theorem acquire_lock_eq_read_then_commit (page owner : String) (nm : Option String)
    (now : Nat) (d : Dir) :
    acquire_lock page owner nm now d =
      acquireCommit page owner nm now (acquireRead page now d).1 (acquireRead page now d).2 := by
  unfold acquire_lock
  rcases acquireRead page now d with ⟨cur, d1⟩
  rfl

/-- Successful acquire: the fresh record is written over whatever the
lazy-expiry pass left, and is returned. -/
theorem acquire_lock_inv (page owner : String) (nm : Option String) (now : Nat)
    (d : Dir) {r : LeaseRecord} (h : (acquire_lock page owner nm now d).1 = some r) :
    r = freshRecord owner nm now ∧
    (acquire_lock page owner nm now d).2 =
      writeFile (lockName page) (.valid r) (get_lock page now d).2 := by
  rw [acquire_lock_eq_read_then_commit] at h ⊢
  rcases hg : acquireRead page now d with ⟨cur, d1⟩
  rw [hg] at h
  have hd1 : (get_lock page now d).2 = d1 := by
    simp only [acquireRead] at hg
    rw [hg]
  cases cur with
  | none =>
      simp only [acquireCommit] at h ⊢
      exact ⟨(Option.some_inj.mp h).symm, by rw [hd1, Option.some_inj.mp h]⟩
  | some r0 =>
      by_cases ho : r0.owner = owner
      · simp only [acquireCommit, if_pos ho] at h ⊢
        exact ⟨(Option.some_inj.mp h).symm, by rw [hd1, Option.some_inj.mp h]⟩
      · simp [acquireCommit, if_neg ho] at h

/-- Acquire against a live lease held by the caller (or after the lazy pass
reports no lease) succeeds and overwrites the record. -/
theorem acquire_lock_owned (page owner : String) (nm : Option String) (now : Nat)
    {d : Dir} {r : LeaseRecord}
    (hread : readFile (lockName page) d = some (.valid r))
    (hu : ¬ r.expires_at < now) (ho : r.owner = owner) :
    acquire_lock page owner nm now d =
      (some (freshRecord owner nm now),
        writeFile (lockName page) (.valid (freshRecord owner nm now)) d) := by
  rw [acquire_lock_eq_read_then_commit]
  simp [acquireRead, get_lock_unexpired page now hread hu, acquireCommit, ho]

/-! ### Claim theorems -/

/-- C1: the claim states that acquire is a single atomic conditional write,
so two concurrent acquires by distinct owners on an unlocked resource can
never both be granted.  `acquire_lock` in `src/app.py` is in fact a
`get_lock` read followed by a separate unconditional `write_text`
(`acquire_lock = acquireCommit ∘ acquireRead`).  This theorem exhibits the
race: with the interleaving read-A, read-B, commit-A, commit-B starting
from the unlocked (empty) store, both calls return a granted lease — owner
"A" is granted, and owner "B" is granted immediately after, silently
overwriting A's record. -/
theorem C1_read_then_write_race_both_granted :
    (acquireRead "home.html" 0 emptyDir).1 = none ∧
    (acquireCommit "home.html" "A" none 0
        (acquireRead "home.html" 0 emptyDir).1
        (acquireRead "home.html" 0 emptyDir).2).1 = some (freshRecord "A" none 0) ∧
    (acquireCommit "home.html" "B" none 0
        (acquireRead "home.html" 0 emptyDir).1
        (acquireCommit "home.html" "A" none 0
          (acquireRead "home.html" 0 emptyDir).1
          (acquireRead "home.html" 0 emptyDir).2).2).1 = some (freshRecord "B" none 0) ∧
    "A" ≠ "B" := by
  refine ⟨rfl, rfl, rfl, ?_⟩
  decide

/-- C2: in every lock-directory state reachable from the empty store by
any sequence of inspect / acquire / release / renew operations, at most one
lease record for a given resource is live (`expires_at > t`) at any instant
`t`. -/
theorem C2_at_most_one_live_record {d : Dir} (h : Reachable d)
    (page : String) (t : Nat) : (liveRecordsFor page t d).length ≤ 1 :=
  liveRecordsFor_length_le_one page t (wfKeys_of_reachable h)

theorem C2_at_most_one_live_record_witness :
    (liveRecordsFor "home.html" 100
      (acquire_lock "home.html" "A" none 0 emptyDir).2).length ≤ 1 :=
  C2_at_most_one_live_record
    (Reachable.step Reachable.init (Step.acquire "home.html" "A" none 0 emptyDir))
    "home.html" 100

/-- C3: when page is validly held by X (unexpired) and Y ≠ X acquires, the
stored lease is untouched (`acquire_lock` returns `None` and the directory
is unchanged) and the API responds 409 Conflict reporting X's identity and
the lease's `expires_at`. -/
theorem C3_contested_acquire_conflict (page X Y : String) (nm : Option String)
    (now : Nat) {d : Dir} {r : LeaseRecord}
    (hread : readFile (lockName page) d = some (.valid r))
    (hX : r.owner = X) (hu : ¬ r.expires_at < now) (hne : X ≠ Y)
    (hpage : safe_src_ok page = true) (hmiss : page ≠ "") :
    acquire_lock page Y nm now d = (none, d) ∧
    api_lock_acquire page Y nm now d = (.locked X r.owner_name r.expires_at, d) := by
  have hgl := get_lock_unexpired page now hread hu
  have hacq : acquire_lock page Y nm now d = (none, d) := by
    rw [acquire_lock_eq_read_then_commit]
    simp [acquireRead, hgl, acquireCommit, hX, hne]
  refine ⟨hacq, ?_⟩
  simp [api_lock_acquire, hmiss, hpage, hacq, hgl, hX]

theorem C3_contested_acquire_conflict_witness :
    acquire_lock "home.html" "B" none 100
        [("home.html.lock", LockFile.valid ⟨"A", "alice", 0, 300⟩)] =
      (none, [("home.html.lock", LockFile.valid ⟨"A", "alice", 0, 300⟩)]) ∧
    api_lock_acquire "home.html" "B" none 100
        [("home.html.lock", LockFile.valid ⟨"A", "alice", 0, 300⟩)] =
      (.locked "A" "alice" 300, [("home.html.lock", LockFile.valid ⟨"A", "alice", 0, 300⟩)]) :=
  C3_contested_acquire_conflict "home.html" "A" "B" none 100
    (d := [("home.html.lock", LockFile.valid ⟨"A", "alice", 0, 300⟩)])
    (r := ⟨"A", "alice", 0, 300⟩)
    rfl rfl (by decide) (by decide) rfl (by decide)

/-- C4: re-acquire by the current holder is idempotent — when
`acquire(page, A)` at `t1` succeeds and A immediately (within the TTL)
acquires again at `t2 ≥ t1`, the second call also succeeds, exactly one
lease record for the page exists afterwards, and its `expires_at` is
`t2 + LOCK_TTL`, no earlier than the first lease's expiry. -/
theorem C4_idempotent_reacquire (page A : String) (n1 n2 : Option String)
    (t1 t2 : Nat) {d : Dir} (hwf : wfKeys d) (r1 : LeaseRecord)
    (h1 : (acquire_lock page A n1 t1 d).1 = some r1)
    (h12 : t1 ≤ t2) (himm : t2 ≤ t1 + LOCK_TTL) :
    ∃ r2 : LeaseRecord,
      (acquire_lock page A n2 t2 (acquire_lock page A n1 t1 d).2).1 = some r2 ∧
      recordsFor page (acquire_lock page A n2 t2 (acquire_lock page A n1 t1 d).2).2 =
        [.valid r2] ∧
      r2.expires_at = t2 + LOCK_TTL ∧
      r1.expires_at ≤ r2.expires_at := by
  rcases acquire_lock_inv page A n1 t1 d h1 with ⟨hr1, hd1⟩
  have hwf1 : wfKeys (acquire_lock page A n1 t1 d).2 := wfKeys_acquire_lock page A n1 t1 hwf
  have hread1 : readFile (lockName page) (acquire_lock page A n1 t1 d).2 =
      some (.valid r1) := by
    rw [hd1]; exact readFile_writeFile_self _ _ _
  have hu1 : ¬ r1.expires_at < t2 := by
    rw [hr1]; simp [freshRecord]; omega
  have ho1 : r1.owner = A := by rw [hr1]; rfl
  have hacq2 := acquire_lock_owned page A n2 t2 hread1 hu1 ho1
  refine ⟨freshRecord A n2 t2, ?_, ?_, ?_, ?_⟩
  · rw [hacq2]
  · rw [hacq2]
    exact recordsFor_writeFile page _ hwf1
  · rfl
  · rw [hr1]; simp [freshRecord]; omega

theorem C4_idempotent_reacquire_witness :
    ∃ r2 : LeaseRecord,
      (acquire_lock "home.html" "A" none 10
          (acquire_lock "home.html" "A" none 0 emptyDir).2).1 = some r2 ∧
      recordsFor "home.html"
          (acquire_lock "home.html" "A" none 10
            (acquire_lock "home.html" "A" none 0 emptyDir).2).2 = [.valid r2] ∧
      r2.expires_at = 10 + LOCK_TTL ∧
      (⟨"A", "", 0, 300⟩ : LeaseRecord).expires_at ≤ r2.expires_at :=
  C4_idempotent_reacquire "home.html" "A" none none 0 10
    (d := emptyDir) (by decide) ⟨"A", "", 0, 300⟩ rfl
    (by decide) (by decide)

/-- C5: expiry is lazy and is the reclamation path — when the stored lease
for a page has `expires_at` in the past, acquire by any owner Y (also one
different from the stale holder) is granted a fresh lease and writes it,
and `get_lock` (inspect) deletes the expired record and reports the page
as unlocked. -/
theorem C5_lazy_expiry_reclaims (page Y : String) (nm : Option String) (now : Nat)
    {d : Dir} {r : LeaseRecord}
    (hread : readFile (lockName page) d = some (.valid r))
    (hexp : r.expires_at < now) :
    (acquire_lock page Y nm now d).1 = some (freshRecord Y nm now) ∧
    readFile (lockName page) (acquire_lock page Y nm now d).2 =
      some (.valid (freshRecord Y nm now)) ∧
    get_lock page now d = (none, removeFile (lockName page) d) ∧
    readFile (lockName page) (get_lock page now d).2 = none := by
  have hgl := get_lock_expired page now hread hexp
  have hacq : acquire_lock page Y nm now d =
      (some (freshRecord Y nm now),
        writeFile (lockName page) (.valid (freshRecord Y nm now))
          (removeFile (lockName page) d)) := by
    rw [acquire_lock_eq_read_then_commit]
    simp [acquireRead, hgl, acquireCommit]
  refine ⟨by rw [hacq], ?_, hgl, ?_⟩
  · rw [hacq]
    exact readFile_writeFile_self _ _ _
  · rw [hgl]
    exact readFile_removeFile_self _ _

theorem C5_lazy_expiry_reclaims_witness :
    (acquire_lock "home.html" "B" none 301
        [("home.html.lock", LockFile.valid ⟨"A", "", 0, 300⟩)]).1 =
      some (freshRecord "B" none 301) ∧
    readFile (lockName "home.html")
        (acquire_lock "home.html" "B" none 301
          [("home.html.lock", LockFile.valid ⟨"A", "", 0, 300⟩)]).2 =
      some (.valid (freshRecord "B" none 301)) ∧
    get_lock "home.html" 301 [("home.html.lock", LockFile.valid ⟨"A", "", 0, 300⟩)] =
      (none, removeFile (lockName "home.html")
        [("home.html.lock", LockFile.valid ⟨"A", "", 0, 300⟩)]) ∧
    readFile (lockName "home.html")
        (get_lock "home.html" 301
          [("home.html.lock", LockFile.valid ⟨"A", "", 0, 300⟩)]).2 = none :=
  C5_lazy_expiry_reclaims "home.html" "B" none 301
    (d := [("home.html.lock", LockFile.valid ⟨"A", "", 0, 300⟩)])
    (r := ⟨"A", "", 0, 300⟩) rfl (by decide)

/-- C6 (counterexample to the claim as stated): renew against an expired
lease does not leave the stored state unchanged — the lazy-expiry pass
inside `get_lock` deletes the stale record even though the renew itself is
refused. -/
theorem C6_expired_renew_mutates_store :
    renew_lock "home.html" "A" 301
        [("home.html.lock", LockFile.valid ⟨"A", "", 0, 300⟩)] = (none, []) ∧
    ([] : Dir) ≠ [("home.html.lock", LockFile.valid ⟨"A", "", 0, 300⟩)] := by
  refine ⟨rfl, ?_⟩
  decide

/-- C6 (amended): renew by the unexpired holder rewrites the record with
`expires_at = now + LOCK_TTL`; renew by a non-holder of an unexpired lease,
or against an absent lease, is refused with no state change; renew against
an expired lease is refused but lazily deletes the stale record (the page
stays observably unlocked). -/
theorem C6_renew_semantics (page owner : String) (now : Nat) (d : Dir) :
    (∀ r : LeaseRecord, readFile (lockName page) d = some (.valid r) →
        ¬ r.expires_at < now → r.owner = owner →
        renew_lock page owner now d =
          (some { r with expires_at := now + LOCK_TTL },
            writeFile (lockName page)
              (.valid { r with expires_at := now + LOCK_TTL }) d)) ∧
    (∀ r : LeaseRecord, readFile (lockName page) d = some (.valid r) →
        ¬ r.expires_at < now → r.owner ≠ owner →
        renew_lock page owner now d = (none, d)) ∧
    (readFile (lockName page) d = none →
        renew_lock page owner now d = (none, d)) ∧
    (∀ r : LeaseRecord, readFile (lockName page) d = some (.valid r) →
        r.expires_at < now →
        renew_lock page owner now d = (none, removeFile (lockName page) d)) := by
  refine ⟨?_, ?_, ?_, ?_⟩
  · intro r hread hu ho
    simp [renew_lock, get_lock_unexpired page now hread hu, ho]
  · intro r hread hu ho
    simp [renew_lock, get_lock_unexpired page now hread hu, ho]
  · intro hread
    simp [renew_lock, get_lock_absent page now hread]
  · intro r hread hexp
    simp [renew_lock, get_lock_expired page now hread hexp]

theorem C6_renew_semantics_witness :
    renew_lock "home.html" "A" 250
        [("home.html.lock", LockFile.valid ⟨"A", "", 0, 300⟩)] =
      (some ⟨"A", "", 0, 550⟩,
        writeFile (lockName "home.html") (.valid ⟨"A", "", 0, 550⟩)
          [("home.html.lock", LockFile.valid ⟨"A", "", 0, 300⟩)]) :=
  (C6_renew_semantics "home.html" "A" 250
      [("home.html.lock", LockFile.valid ⟨"A", "", 0, 300⟩)]).1
    ⟨"A", "", 0, 300⟩ rfl (by decide) rfl

/-- C7 (counterexample to the claim as stated): release against an expired
lease does not leave the stored state unchanged — the lazy-expiry pass
inside `get_lock` deletes the stale record even though the release itself
is refused. -/
theorem C7_expired_release_mutates_store :
    release_lock "home.html" "B" 301
        [("home.html.lock", LockFile.valid ⟨"A", "", 0, 300⟩)] = (false, []) ∧
    ([] : Dir) ≠ [("home.html.lock", LockFile.valid ⟨"A", "", 0, 300⟩)] := by
  refine ⟨rfl, ?_⟩
  decide

/-- C7 (amended): release by the unexpired holder deletes the record (the
page becomes unlocked); release by a non-holder of an unexpired lease, or
when no record is stored, is refused with no state change; release against
an expired lease is refused but lazily deletes the stale record (the page
stays observably unlocked). -/
theorem C7_release_semantics (page owner : String) (now : Nat) (d : Dir) :
    (∀ r : LeaseRecord, readFile (lockName page) d = some (.valid r) →
        ¬ r.expires_at < now → r.owner = owner →
        release_lock page owner now d = (true, removeFile (lockName page) d) ∧
        readFile (lockName page) (release_lock page owner now d).2 = none) ∧
    (∀ r : LeaseRecord, readFile (lockName page) d = some (.valid r) →
        ¬ r.expires_at < now → r.owner ≠ owner →
        release_lock page owner now d = (false, d)) ∧
    (readFile (lockName page) d = none →
        release_lock page owner now d = (false, d)) ∧
    (∀ r : LeaseRecord, readFile (lockName page) d = some (.valid r) →
        r.expires_at < now →
        release_lock page owner now d = (false, removeFile (lockName page) d)) := by
  refine ⟨?_, ?_, ?_, ?_⟩
  · intro r hread hu ho
    have hrel : release_lock page owner now d = (true, removeFile (lockName page) d) := by
      simp [release_lock, get_lock_unexpired page now hread hu, ho]
    exact ⟨hrel, by rw [hrel]; exact readFile_removeFile_self _ _⟩
  · intro r hread hu ho
    simp [release_lock, get_lock_unexpired page now hread hu, ho]
  · intro hread
    simp [release_lock, get_lock_absent page now hread]
  · intro r hread hexp
    simp [release_lock, get_lock_expired page now hread hexp]

theorem C7_release_semantics_witness :
    release_lock "home.html" "A" 260
        [("home.html.lock", LockFile.valid ⟨"A", "", 0, 300⟩)] =
      (true, removeFile (lockName "home.html")
        [("home.html.lock", LockFile.valid ⟨"A", "", 0, 300⟩)]) ∧
    readFile (lockName "home.html")
        (release_lock "home.html" "A" 260
          [("home.html.lock", LockFile.valid ⟨"A", "", 0, 300⟩)]).2 = none :=
  (C7_release_semantics "home.html" "A" 260
      [("home.html.lock", LockFile.valid ⟨"A", "", 0, 300⟩)]).1
    ⟨"A", "", 0, 300⟩ rfl (by decide) rfl

/-- C8: for a page outside the `SRC_FILES` whitelist, the acquire, release
and keepalive endpoints answer with an error before any lock-store access
— the lock directory is returned unchanged — and for a non-empty page name
the error is precisely the "invalid page" (InvalidResource) response. -/
theorem C8_invalid_resource_fail_closed (page owner : String) (nm : Option String)
    (now : Nat) (d : Dir) (h : safe_src_ok page = false) :
    ((api_lock_acquire page owner nm now d).2 = d ∧
      ∃ msg, (api_lock_acquire page owner nm now d).1 = .err msg) ∧
    ((api_lock_release page owner now d).2 = d ∧
      ∃ msg c, (api_lock_release page owner now d).1 = .err msg c) ∧
    ((api_lock_keepalive page owner now d).2 = d ∧
      ∃ msg c, (api_lock_keepalive page owner now d).1 = .err msg c) ∧
    (page ≠ "" →
      (api_lock_acquire page owner nm now d).1 = .err "invalid page" ∧
      (api_lock_release page owner now d).1 = .err "invalid page" 400 ∧
      (api_lock_keepalive page owner now d).1 = .err "invalid page" 400) := by
  by_cases hp : page = ""
  · subst hp
    exact ⟨⟨rfl, "missing page", rfl⟩, ⟨rfl, "missing page", 400, rfl⟩,
      ⟨rfl, "missing page", 400, rfl⟩, fun hc => absurd rfl hc⟩
  · refine ⟨⟨?_, "invalid page", ?_⟩, ⟨?_, "invalid page", 400, ?_⟩,
      ⟨?_, "invalid page", 400, ?_⟩, fun _ => ⟨?_, ?_, ?_⟩⟩ <;>
      simp [api_lock_acquire, api_lock_release, api_lock_keepalive, hp, h]

theorem C8_invalid_resource_fail_closed_witness :
    safe_src_ok "nonexistent" = false ∧
    (api_lock_acquire "nonexistent" "A" none 0 emptyDir).2 = emptyDir ∧
    (api_lock_acquire "nonexistent" "A" none 0 emptyDir).1 = .err "invalid page" ∧
    (api_lock_release "nonexistent" "A" 0 emptyDir).2 = emptyDir ∧
    (api_lock_keepalive "nonexistent" "A" 0 emptyDir).2 = emptyDir := by
  have h := C8_invalid_resource_fail_closed "nonexistent" "A" none 0 emptyDir rfl
  exact ⟨rfl, h.1.1, (h.2.2.2 (by decide)).1, h.2.1.1, h.2.2.1.1⟩

/-- C9 (counterexample to the claim as stated): a renewal refreshes the
record but keeps the original `acquired_at`, so afterwards `expires_at`
(here 550) is not `acquired_at + TTL` (here 0 + 300). -/
theorem C9_renewal_breaks_acquired_plus_ttl :
    (renew_lock "home.html" "A" 250
        (acquire_lock "home.html" "A" none 0 emptyDir).2).1 =
      some ⟨"A", "", 0, 550⟩ ∧
    ¬ ((550 : Nat) = 0 + LOCK_TTL) := by
  refine ⟨rfl, ?_⟩
  decide

/-- C9 (amended): a record created by acquire has
`expires_at = acquired_at + LOCK_TTL` with `acquired_at = now`; a renewal
keeps the original `acquired_at` and sets `expires_at` to the renewal
instant plus `LOCK_TTL`, and (as long as the live lease's expiry does not
exceed `now + LOCK_TTL`, which holds whenever the clock is non-decreasing)
`expires_at` never decreases across renewals. -/
theorem C9_expires_at_discipline (page owner : String) (nm : Option String)
    (now : Nat) (d : Dir) :
    (∀ r2 : LeaseRecord, (acquire_lock page owner nm now d).1 = some r2 →
        r2.acquired_at = now ∧ r2.expires_at = r2.acquired_at + LOCK_TTL) ∧
    (∀ r r2 : LeaseRecord, readFile (lockName page) d = some (.valid r) →
        ¬ r.expires_at < now → r.owner = owner →
        (renew_lock page owner now d).1 = some r2 →
        r2.acquired_at = r.acquired_at ∧ r2.expires_at = now + LOCK_TTL ∧
        (r.expires_at ≤ now + LOCK_TTL → r.expires_at ≤ r2.expires_at)) := by
  constructor
  · intro r2 h2
    rcases acquire_lock_inv page owner nm now d h2 with ⟨hr2, -⟩
    rw [hr2]
    exact ⟨rfl, rfl⟩
  · intro r r2 hread hu ho h2
    have hr : (renew_lock page owner now d).1 =
        some { r with expires_at := now + LOCK_TTL } := by
      simp [renew_lock, get_lock_unexpired page now hread hu, ho]
    rw [hr] at h2
    rw [← Option.some_inj.mp h2]
    exact ⟨rfl, rfl, fun hle => hle⟩

theorem C9_expires_at_discipline_witness :
    ((⟨"A", "", 5, 305⟩ : LeaseRecord).acquired_at = 5 ∧
      (⟨"A", "", 5, 305⟩ : LeaseRecord).expires_at =
        (⟨"A", "", 5, 305⟩ : LeaseRecord).acquired_at + LOCK_TTL) ∧
    ((⟨"A", "", 5, 550⟩ : LeaseRecord).acquired_at =
        (⟨"A", "", 5, 305⟩ : LeaseRecord).acquired_at ∧
      (⟨"A", "", 5, 550⟩ : LeaseRecord).expires_at = 250 + LOCK_TTL ∧
      ((⟨"A", "", 5, 305⟩ : LeaseRecord).expires_at ≤ 250 + LOCK_TTL →
        (⟨"A", "", 5, 305⟩ : LeaseRecord).expires_at ≤
          (⟨"A", "", 5, 550⟩ : LeaseRecord).expires_at)) :=
  ⟨(C9_expires_at_discipline "home.html" "A" none 5 emptyDir).1 ⟨"A", "", 5, 305⟩ rfl,
    (C9_expires_at_discipline "home.html" "A" none 250
        [("home.html.lock", LockFile.valid ⟨"A", "", 5, 305⟩)]).2
      ⟨"A", "", 5, 305⟩ ⟨"A", "", 5, 550⟩ rfl (by decide) rfl rfl⟩

/-- C10: a lock file that does not parse is treated as no lock — inspect
reports no lock while keeping the corrupt file in place, acquire by any
owner is granted and overwrites the corrupt content with a fresh lease,
and renew and release are refused with no state change. -/
theorem C10_corrupt_record_treated_unlocked (page owner : String)
    (nm : Option String) (now : Nat) {d : Dir} {s : String}
    (hread : readFile (lockName page) d = some (.corrupt s)) :
    get_lock page now d = (none, d) ∧
    readFile (lockName page) (get_lock page now d).2 = some (.corrupt s) ∧
    acquire_lock page owner nm now d =
      (some (freshRecord owner nm now),
        writeFile (lockName page) (.valid (freshRecord owner nm now)) d) ∧
    renew_lock page owner now d = (none, d) ∧
    release_lock page owner now d = (false, d) := by
  have hgl := get_lock_corrupt page now hread
  refine ⟨hgl, by rw [hgl]; exact hread, ?_, ?_, ?_⟩
  · rw [acquire_lock_eq_read_then_commit]
    simp [acquireRead, hgl, acquireCommit]
  · simp [renew_lock, hgl]
  · simp [release_lock, hgl]

theorem C10_corrupt_record_treated_unlocked_witness :
    get_lock "home.html" 50 [("home.html.lock", LockFile.corrupt "oops")] =
      (none, [("home.html.lock", LockFile.corrupt "oops")]) ∧
    readFile (lockName "home.html")
        (get_lock "home.html" 50 [("home.html.lock", LockFile.corrupt "oops")]).2 =
      some (.corrupt "oops") ∧
    acquire_lock "home.html" "B" none 50 [("home.html.lock", LockFile.corrupt "oops")] =
      (some (freshRecord "B" none 50),
        writeFile (lockName "home.html") (.valid (freshRecord "B" none 50))
          [("home.html.lock", LockFile.corrupt "oops")]) ∧
    renew_lock "home.html" "B" 50 [("home.html.lock", LockFile.corrupt "oops")] =
      (none, [("home.html.lock", LockFile.corrupt "oops")]) ∧
    release_lock "home.html" "B" 50 [("home.html.lock", LockFile.corrupt "oops")] =
      (false, [("home.html.lock", LockFile.corrupt "oops")]) :=
  C10_corrupt_record_treated_unlocked "home.html" "B" none 50
    (d := [("home.html.lock", LockFile.corrupt "oops")]) (s := "oops") rfl

end LockApp
